import Mathlib

/-
Verification of the AssetMonitor batch prediction service (src/app.py)
against its natural-language specification.

Embedding conventions:
* Python floats are modelled as rationals; numeric literals such as 1.8
  denote the exact decimal the source writes.
* A JSON value inside a reading is either a numeric value or a value on
  which Python's float() raises (modelled by the `bad` constructor).
* Python dicts keyed by strings are association lists with `List.lookup`;
  insertion order is the list order, matching dict iteration order.
* Exceptions are explicit: functions that can raise return `Except PyExc`,
  and the distinguished `raised` constructors mark exceptions that escape
  a function rather than being converted into an error dictionary.
* The trained models are opaque collaborators: every definition is
  parameterised by a `ModelMap` assigning each model name a total function
  from its feature vector to a prediction.
* The `timestamp` field of the health report (wall-clock time in the
  source) is omitted; every claim under study excludes it.
-/

namespace AssetMonitor

/-- JSON value stored in a reading: a numeric value, or a value (tagged by
the string `s`) on which Python's float() raises. -/
inductive JVal where
  | num (q : ℚ)
  | bad (s : String)
deriving DecidableEq

/-- Reading: a dict from feature name to value (src/app.py request items). -/
abbrev Reading := List (String × JVal)

/-- Python exception values that matter to the pipeline. -/
inductive PyExc where
  | keyError (k : String)
  | valueError (s : String)
  | typeError (s : String)
  | indexError
deriving DecidableEq

/-- Message text of an exception, as str(e) renders it in Python
(str of a KeyError is the repr of the missing key). -/
def excMsg : PyExc → String
  | .keyError k => "'" ++ k ++ "'"
  | .valueError s => s
  | .typeError s => s
  | .indexError => "list index out of range"

instance {ε α : Type} [DecidableEq ε] [DecidableEq α] : DecidableEq (Except ε α) := fun a b =>
  match a, b with
  | .ok x, .ok y =>
    if h : x = y then .isTrue (by rw [h])
    else .isFalse (fun hc => h (by injection hc))
  | .error x, .error y =>
    if h : x = y then .isTrue (by rw [h])
    else .isFalse (fun hc => h (by injection hc))
  | .ok _, .error _ => .isFalse (fun hc => Except.noConfusion hc)
  | .error _, .ok _ => .isFalse (fun hc => Except.noConfusion hc)

/-- Python float() applied to a reading value: numeric values parse, bad
values raise ValueError. -/
def pyFloat : JVal → Except PyExc ℚ
  | .num q => .ok q
  | .bad s => .error (.valueError s)

/-- Python dict subscription d[k]: the value when the key is present, a
KeyError otherwise. -/
def dictGet {β : Type} (d : List (String × β)) (k : String) : Except PyExc β :=
  match d.lookup k with
  | some v => .ok v
  | none => .error (.keyError k)

/-- model_names list from src/app.py lines 20-26. -/
def model_names : List String :=
  ["temperature_model", "vibration_model", "magnetic_flux_model",
   "audible_sound_model", "ultra_sound_model"]

/-- feature_sets dict from src/app.py lines 30-36 (a function because it is
only ever read at the five registered names; unregistered names map to []). -/
def feature_sets : String → List String
  | "temperature_model" => ["temperature_one", "temperature_two"]
  | "vibration_model" => ["vibration_x", "vibration_y", "vibration_z"]
  | "magnetic_flux_model" => ["magnetic_flux_x", "magnetic_flux_y", "magnetic_flux_z"]
  | "audible_sound_model" => ["vibration_x", "vibration_y", "vibration_z", "audible_sound"]
  | "ultra_sound_model" => ["vibration_x", "vibration_y", "vibration_z", "ultra_sound"]
  | _ => []

/-- Prediction of one model on one reading: numeric or categorical
(src/app.py line 112 coerces to float or str). -/
inductive PredVal where
  | num (q : ℚ)
  | cat (s : String)
deriving DecidableEq

def PredVal.isNum : PredVal → Bool
  | .num _ => true
  | .cat _ => false

/-- Numeric payload of a prediction (only used on values known numeric). -/
def PredVal.toNum : PredVal → ℚ
  | .num q => q
  | .cat _ => 0

/-- Python str() of a float, for the integral values that actually arise;
abstracts CPython float formatting on non-integral values. -/
def ratStr (q : ℚ) : String :=
  if q.den = 1 then toString q.num ++ ".0" else toString q

/-- Python str() applied to a prediction value (src/app.py line 104). -/
def pyStr : PredVal → String
  | .num q => ratStr q
  | .cat s => s

/-- Opaque trained model: total function from the feature vector to a
prediction (the joblib-loaded predictors are out of scope). -/
abbrev Model := List ℚ → PredVal

/-- Assignment of a model to each model name (the models dict, line 27). -/
abbrev ModelMap := String → Model

/-- Short model key: model_name.replace('_model', '') at src/app.py lines
98 and 113, tabulated on the five registered names because String.replace
is defined by well-founded recursion and does not evaluate in the kernel;
on any other string the replacement is the identity here, and the function
is only ever applied to registered names. -/
def shortName : String → String
  | "temperature_model" => "temperature"
  | "vibration_model" => "vibration"
  | "magnetic_flux_model" => "magnetic_flux"
  | "audible_sound_model" => "audible_sound"
  | "ultra_sound_model" => "ultra_sound"
  | s => s

/-- evaluate_machine_condition, src/app.py lines 38-44. -/
def evaluate_machine_condition (temperature vibration : ℚ) : String :=
  if temperature < 80 ∧ vibration < 1.8 then "Safe Condition"
  else if temperature < 100 ∧ vibration < 2.8 then "Maintain Condition"
  else "Repair Condition"

/-- detect_temperature_anomaly, src/app.py lines 46-54. -/
def detect_temperature_anomaly (temperature : ℚ) : String :=
  if temperature < 80 then "No significant temperature anomaly detected"
  else if 80 ≤ temperature ∧ temperature < 100 then "Moderate Overheating - Check Lubrication"
  else if 100 ≤ temperature ∧ temperature < 120 then
    "Significant Overheating - Possible Misalignment or Bearing Wear"
  else "Critical Overheating - Immediate Repair Needed"

/-- detect_vibration_anomaly, src/app.py lines 56-66. -/
def detect_vibration_anomaly (vibration : ℚ) : String :=
  if vibration < 1.8 then "No significant vibration anomaly detected"
  else if 1.8 ≤ vibration ∧ vibration < 2.8 then "Unbalance Fault"
  else if 2.8 ≤ vibration ∧ vibration < 4.5 then "Misalignment Fault"
  else if 4.5 ≤ vibration ∧ vibration < 7.1 then "Looseness Fault"
  else "Bearing Fault or Gear Mesh Fault"

/-- Health report assembled by analyze_health (timestamp omitted, see the
file header). -/
structure Health where
  machine_condition : String
  temperature_analysis : String
  vibration_analysis : String
  overall_health : String
deriving DecidableEq

/-- Body of analyze_health after the five feature extractions,
src/app.py lines 69-79. -/
def analyzeHealthCore (t1 t2 vx vy vz : ℚ) : Health :=
  let avg_temp := (t1 + t2) / 2
  let avg_vibration := (vx + vy + vz) / 3
  let condition := evaluate_machine_condition avg_temp avg_vibration
  { machine_condition := condition
    temperature_analysis := detect_temperature_anomaly avg_temp
    vibration_analysis := detect_vibration_anomaly avg_vibration
    overall_health := if condition = "Safe Condition" then "Healthy" else "Unhealthy" }

/-- analyze_health, src/app.py lines 68-79: looks the five features up in
the given dict (the modes dict at the call site) in source evaluation
order; a missing key raises. -/
def analyze_health (d : List (String × ℚ)) : Except PyExc Health :=
  match dictGet d "temperature_one" with
  | .error e => .error e
  | .ok t1 =>
    match dictGet d "temperature_two" with
    | .error e => .error e
    | .ok t2 =>
      match dictGet d "vibration_x" with
      | .error e => .error e
      | .ok vx =>
        match dictGet d "vibration_y" with
        | .error e => .error e
        | .ok vy =>
          match dictGet d "vibration_z" with
          | .error e => .error e
          | .ok vz => .ok (analyzeHealthCore t1 t2 vx vy vz)

/-- Counter(l).most_common(1)[0][0]: Counter keys appear in first-occurrence
order and most_common is count-stable, so the result is the first element
of l whose multiplicity is maximal; none on the empty list. -/
def most_common {α : Type} [DecidableEq α] (l : List α) : Option α :=
  l.find? (fun y => l.all (fun z => decide (l.count z ≤ l.count y)))

/-- Feature keys of the all_values dict in calculate_modes, src/app.py
lines 83-84: the temperature, vibration and magnetic-flux feature lists
plus feature_sets['audible_sound_model'][3:]. -/
def modeKeys : List String :=
  feature_sets "temperature_model" ++ feature_sets "vibration_model" ++
    feature_sets "magnetic_flux_model" ++ (feature_sets "audible_sound_model").drop 3

/-- Values of one feature across the batch: [float(r[key]) for r in batch]
(src/app.py lines 86-88, read per key). -/
def collectValues (key : String) : List Reading → Except PyExc (List ℚ)
  | [] => .ok []
  | r :: rs =>
    match dictGet r key with
    | .error e => .error e
    | .ok v =>
      match pyFloat v with
      | .error e => .error e
      | .ok q =>
        match collectValues key rs with
        | .error e => .error e
        | .ok qs => .ok (q :: qs)

/-- Per-key loop of calculate_modes, src/app.py lines 90-91: mode of each
key's value list; most_common(1)[0] on an empty list raises IndexError. -/
def modesAux (batch : List Reading) : List String → Except PyExc (List (String × ℚ))
  | [] => .ok []
  | k :: ks =>
    match collectValues k batch with
    | .error e => .error e
    | .ok vals =>
      match most_common vals with
      | none => .error .indexError
      | some m =>
        match modesAux batch ks with
        | .error e => .error e
        | .ok rest => .ok ((k, m) :: rest)

/-- calculate_modes, src/app.py lines 81-93. -/
def calculate_modes (batch : List Reading) : Except PyExc (List (String × ℚ)) :=
  modesAux batch modeKeys

/-- Aggregated value for one model: float mean or str mode (lines 100-104). -/
inductive AggVal where
  | num (q : ℚ)
  | cat (s : String)
deriving DecidableEq

/-- Series [pred[key] for pred in predictions_list] (src/app.py line 99);
a dict lacking the key raises KeyError. -/
def seriesFor (key : String) : List (List (String × PredVal)) → Except PyExc (List PredVal)
  | [] => .ok []
  | p :: ps =>
    match dictGet p key with
    | .error e => .error e
    | .ok v =>
      match seriesFor key ps with
      | .error e => .error e
      | .ok vs => .ok (v :: vs)

/-- np.mean over a prediction series (exact rational mean). -/
def npMean (vals : List PredVal) : ℚ :=
  (vals.map PredVal.toNum).sum / (vals.length : ℚ)

/-- Aggregation of one model's series, src/app.py lines 100-104: mean when
every value is numeric, otherwise str of the most common value. -/
def aggregateOne (vals : List PredVal) : Except PyExc AggVal :=
  if vals.all PredVal.isNum then .ok (.num (npMean vals))
  else
    match most_common vals with
    | none => .error .indexError
    | some m => .ok (.cat (pyStr m))

/-- Per-model loop of aggregate_predictions, src/app.py lines 97-104. -/
def aggregateAux (preds : List (List (String × PredVal))) :
    List String → Except PyExc (List (String × AggVal))
  | [] => .ok []
  | mname :: ms =>
    match seriesFor (shortName mname) preds with
    | .error e => .error e
    | .ok vals =>
      match aggregateOne vals with
      | .error e => .error e
      | .ok a =>
        match aggregateAux preds ms with
        | .error e => .error e
        | .ok rest => .ok ((shortName mname, a) :: rest)

/-- aggregate_predictions, src/app.py lines 95-105. -/
def aggregate_predictions (preds : List (List (String × PredVal))) :
    Except PyExc (List (String × AggVal)) :=
  aggregateAux preds model_names

/-- Feature extraction [float(input_data[f]) for f in features], src/app.py
line 110: left to right, first exception wins; a missing key raises
KeyError, an unparseable value raises ValueError. -/
def extractFeatures (r : Reading) : List String → Except PyExc (List ℚ)
  | [] => .ok []
  | f :: fs =>
    match r.lookup f with
    | none => .error (.keyError f)
    | some v =>
      match pyFloat v with
      | .error e => .error e
      | .ok q =>
        match extractFeatures r fs with
        | .error e => .error e
        | .ok qs => .ok (q :: qs)

/-- Outcome of predict_single_model: the returned one-entry dict, the
returned error dict, or an exception escaping the function (the except
clause at line 114 catches only ValueError and TypeError, so a KeyError
from a missing feature escapes). -/
inductive SingleOut where
  | ok (key : String) (v : PredVal)
  | errDict (msg : String)
  | raised (e : PyExc)
deriving DecidableEq

/-- predict_single_model, src/app.py lines 107-115. -/
def predict_single_model (mname : String) (model : Model) (r : Reading) : SingleOut :=
  match extractFeatures r (feature_sets mname) with
  | .error (.keyError f) => .raised (.keyError f)
  | .error e => .errDict ("Invalid input for " ++ mname ++ ": " ++ excMsg e)
  | .ok xs => .ok (shortName mname) (model xs)

/-- Successful result dict of predict_from_models, src/app.py lines
143-147 (keys predictions, modes, Analysis_summary). -/
structure FullResult where
  predictions : List (String × AggVal)
  modes : List (String × ℚ)
  analysis_summary : Health
deriving DecidableEq

/-- Outcome of the whole reading loop: the list of per-reading prediction
dicts, or the first failure. -/
inductive ReadOutList where
  | ok (ds : List (List (String × PredVal)))
  | errDict (msg : String)
  | raised (e : PyExc)
deriving DecidableEq

/-- Outcome of the per-reading fan-out loop, src/app.py lines 122-134:
the predictions dict in completion order, the returned error dict, or an
exception re-raised by future.result(). -/
inductive ReadOut where
  | ok (d : List (String × PredVal))
  | errDict (msg : String)
  | raised (e : PyExc)
deriving DecidableEq

/-- Loop over the completed futures of one reading (src/app.py lines
127-132): order is the completion order of as_completed, successes are
accumulated into the predictions dict, the first error dict is returned,
and an exception re-raised by future.result() escapes. -/
def processReadingAux (M : ModelMap) (r : Reading) :
    List String → List (String × PredVal) → ReadOut
  | [], acc => .ok acc
  | n :: ns, acc =>
    match predict_single_model n (M n) r with
    | .ok k v => processReadingAux M r ns (acc ++ [(k, v)])
    | .errDict m => .errDict m
    | .raised e => .raised e

/-- Fan-out executor for one reading, with the model completion order made
explicit (the thread pool of src/app.py lines 121-132 decides it). -/
def processReading (M : ModelMap) (order : List String) (r : Reading) : ReadOut :=
  processReadingAux M r order []

/-- Outcome of predict_from_models: the assembled result dict, the error
dict returned at line 131, or an exception escaping the function. -/
inductive PipeOut where
  | ok (r : FullResult)
  | errDict (msg : String)
  | raised (e : PyExc)
deriving DecidableEq

/-- Reading loop of predict_from_models, src/app.py lines 122-134: readings
are processed strictly in batch order; the loop stops at the first reading
whose fan-out fails. The index argument selects that reading's completion
order from the schedule. -/
def runReadings (M : ModelMap) (σ : Nat → List String) :
    Nat → List Reading → ReadOutList
  | _, [] => .ok []
  | i, r :: rs =>
    match processReading M (σ i) r with
    | .errDict m => .errDict m
    | .raised e => .raised e
    | .ok d =>
      match runReadings M σ (i + 1) rs with
      | .errDict m => .errDict m
      | .raised e => .raised e
      | .ok ds => .ok (d :: ds)

/-- predict_from_models, src/app.py lines 117-152, parameterised by the
schedule σ giving each reading's model completion order. -/
def predict_from_models_sched (M : ModelMap) (σ : Nat → List String)
    (batch : List Reading) : PipeOut :=
  match runReadings M σ 0 batch with
  | .errDict m => .errDict m
  | .raised e => .raised e
  | .ok ds =>
    match aggregate_predictions ds with
    | .error e => .raised e
    | .ok agg =>
      match calculate_modes batch with
      | .error e => .raised e
      | .ok ms =>
        match analyze_health ms with
        | .error e => .raised e
        | .ok h => .ok ⟨agg, ms, h⟩

/-- predict_from_models with the reference deterministic schedule
(models complete in registration order). -/
def predict_from_models (M : ModelMap) (batch : List Reading) : PipeOut :=
  predict_from_models_sched M (fun _ => model_names) batch

/-- A schedule is valid when every reading's completion order is a
permutation of the registered model names. -/
def ValidSched (σ : Nat → List String) : Prop :=
  ∀ i, (σ i).Perm model_names

/-- Request body of the /predict route: a JSON value that is either not a
list or a list of readings. -/
inductive Input where
  | notList
  | list (rs : List Reading)

/-- Response of the /predict route: a 400 shape error, a 200 success body,
the 200 error body produced when predict_from_models returns an error
dict, or the 500 body of the outer exception handler. -/
inductive Response where
  | shapeError (msg : String)
  | success (r : FullResult)
  | errorBody (msg : String)
  | serverError (msg : String)
deriving DecidableEq

/-- predict route handler, src/app.py lines 154-171. -/
def predict (M : ModelMap) : Input → Response
  | .notList => .shapeError "Input must be an array"
  | .list rs =>
    if rs.length > 1800 then .shapeError "Input array exceeds maximum length of 1800"
    else if rs.length = 0 then .shapeError "Input array cannot be empty"
    else
      match predict_from_models M rs with
      | .ok r => .success r
      | .errDict m => .errorBody m
      | .raised e => .serverError (excMsg e)

/-! Concrete fixtures used by witnesses and counterexamples. -/

/-- Constant model map: every model predicts the numeric value 0. -/
def Mc : ModelMap := fun _ => fun _ => .num 0

/-- Reading carrying every feature any model consumes. -/
def rGood : Reading :=
  [("temperature_one", .num 60), ("temperature_two", .num 70),
   ("vibration_x", .num 1), ("vibration_y", .num 1), ("vibration_z", .num 1),
   ("magnetic_flux_x", .num 1), ("magnetic_flux_y", .num 1), ("magnetic_flux_z", .num 1),
   ("audible_sound", .num 1), ("ultra_sound", .num 1)]

/-- Reading identical to rGood except that vibration_x is absent. -/
def rBad : Reading :=
  [("temperature_one", .num 60), ("temperature_two", .num 70),
   ("vibration_y", .num 1), ("vibration_z", .num 1),
   ("magnetic_flux_x", .num 1), ("magnetic_flux_y", .num 1), ("magnetic_flux_z", .num 1),
   ("audible_sound", .num 1), ("ultra_sound", .num 1)]

/-- Reading with a chosen temperature_one value and every other feature 1. -/
def rTemp (q : ℚ) : Reading :=
  [("temperature_one", .num q), ("temperature_two", .num 1),
   ("vibration_x", .num 1), ("vibration_y", .num 1), ("vibration_z", .num 1),
   ("magnetic_flux_x", .num 1), ("magnetic_flux_y", .num 1), ("magnetic_flux_z", .num 1),
   ("audible_sound", .num 1), ("ultra_sound", .num 1)]

/-- Modes-shaped dict describing a safe machine. -/
def dSafe : List (String × ℚ) :=
  [("temperature_one", 60), ("temperature_two", 70),
   ("vibration_x", 1/2), ("vibration_y", 1/2), ("vibration_z", 1/2)]

/-! Tier characterisations of the threshold functions. -/

lemma dta_none (t : ℚ) :
    detect_temperature_anomaly t = "No significant temperature anomaly detected" ↔ t < 80 := by
  unfold detect_temperature_anomaly
  split_ifs with h1 h2 h3
  · simp [h1]
  · exact iff_of_false (by simp) h1
  · exact iff_of_false (by simp) h1
  · exact iff_of_false (by simp) h1

lemma dta_moderate (t : ℚ) :
    detect_temperature_anomaly t = "Moderate Overheating - Check Lubrication" ↔
      80 ≤ t ∧ t < 100 := by
  unfold detect_temperature_anomaly
  split_ifs with h1 h2 h3
  · exact iff_of_false (by simp) (fun h => absurd h1 (not_lt.mpr h.1))
  · simp [h2]
  · exact iff_of_false (by simp) (fun h => absurd h (by tauto))
  · exact iff_of_false (by simp) (fun h => absurd h (by tauto))

lemma dta_significant (t : ℚ) :
    detect_temperature_anomaly t =
      "Significant Overheating - Possible Misalignment or Bearing Wear" ↔
      100 ≤ t ∧ t < 120 := by
  unfold detect_temperature_anomaly
  split_ifs with h1 h2 h3
  · exact iff_of_false (by simp) (fun h => by linarith [h.1])
  · exact iff_of_false (by simp) (fun h => by linarith [h.1, h2.2])
  · simp [h3]
  · exact iff_of_false (by simp) (fun h => absurd h h3)

lemma dta_critical (t : ℚ) :
    detect_temperature_anomaly t = "Critical Overheating - Immediate Repair Needed" ↔
      120 ≤ t := by
  unfold detect_temperature_anomaly
  split_ifs with h1 h2 h3
  · exact iff_of_false (by simp) (fun h => by linarith)
  · exact iff_of_false (by simp) (fun h => by linarith [h2.2])
  · exact iff_of_false (by simp) (fun h => by linarith [h3.2])
  · constructor
    · intro _
      by_contra hlt
      push_neg at h1 h2 h3 hlt
      have h100 := h2 h1
      have h120 := h3 h100
      linarith
    · intro _
      rfl

lemma dva_none (v : ℚ) :
    detect_vibration_anomaly v = "No significant vibration anomaly detected" ↔ v < 1.8 := by
  unfold detect_vibration_anomaly
  split_ifs with h1 h2 h3 h4
  · simp [h1]
  · exact iff_of_false (by simp) h1
  · exact iff_of_false (by simp) h1
  · exact iff_of_false (by simp) h1
  · exact iff_of_false (by simp) h1

lemma dva_unbalance (v : ℚ) :
    detect_vibration_anomaly v = "Unbalance Fault" ↔ 1.8 ≤ v ∧ v < 2.8 := by
  unfold detect_vibration_anomaly
  split_ifs with h1 h2 h3 h4
  · exact iff_of_false (by simp) (fun h => absurd h1 (not_lt.mpr h.1))
  · simp [h2]
  · exact iff_of_false (by simp) (fun h => absurd h (by tauto))
  · exact iff_of_false (by simp) (fun h => absurd h (by tauto))
  · exact iff_of_false (by simp) (fun h => absurd h (by tauto))

lemma dva_misalignment (v : ℚ) :
    detect_vibration_anomaly v = "Misalignment Fault" ↔ 2.8 ≤ v ∧ v < 4.5 := by
  unfold detect_vibration_anomaly
  split_ifs with h1 h2 h3 h4
  · exact iff_of_false (by simp) (fun h => by linarith [h.1])
  · exact iff_of_false (by simp) (fun h => by linarith [h.1, h2.2])
  · simp [h3]
  · exact iff_of_false (by simp) (fun h => absurd h (by tauto))
  · exact iff_of_false (by simp) (fun h => absurd h (by tauto))

lemma dva_looseness (v : ℚ) :
    detect_vibration_anomaly v = "Looseness Fault" ↔ 4.5 ≤ v ∧ v < 7.1 := by
  unfold detect_vibration_anomaly
  split_ifs with h1 h2 h3 h4
  · exact iff_of_false (by simp) (fun h => by linarith [h.1])
  · exact iff_of_false (by simp) (fun h => by linarith [h.1, h2.2])
  · exact iff_of_false (by simp) (fun h => by linarith [h.1, h3.2])
  · simp [h4]
  · exact iff_of_false (by simp) (fun h => absurd h h4)

lemma dva_bearing (v : ℚ) :
    detect_vibration_anomaly v = "Bearing Fault or Gear Mesh Fault" ↔ 7.1 ≤ v := by
  unfold detect_vibration_anomaly
  split_ifs with h1 h2 h3 h4
  · exact iff_of_false (by simp) (fun h => by linarith)
  · exact iff_of_false (by simp) (fun h => by linarith [h2.2])
  · exact iff_of_false (by simp) (fun h => by linarith [h3.2])
  · exact iff_of_false (by simp) (fun h => by linarith [h4.2])
  · constructor
    · intro _
      by_contra hlt
      push_neg at h1 h2 h3 h4 hlt
      have h28 := h2 h1
      have h45 := h3 h28
      have h71 := h4 h45
      linarith
    · intro _
      rfl

lemma emc_safe (t v : ℚ) :
    evaluate_machine_condition t v = "Safe Condition" ↔ t < 80 ∧ v < 1.8 := by
  unfold evaluate_machine_condition
  split_ifs with h1 h2
  · simp [h1]
  · exact iff_of_false (by simp) h1
  · exact iff_of_false (by simp) h1

lemma emc_maintain (t v : ℚ) :
    evaluate_machine_condition t v = "Maintain Condition" ↔
      ¬(t < 80 ∧ v < 1.8) ∧ (t < 100 ∧ v < 2.8) := by
  unfold evaluate_machine_condition
  split_ifs with h1 h2
  · exact iff_of_false (by simp) (fun h => h.1 h1)
  · simp [h1, h2]
  · exact iff_of_false (by simp) (fun h => h2 h.2)

lemma emc_repair (t v : ℚ) :
    evaluate_machine_condition t v = "Repair Condition" ↔
      ¬(t < 80 ∧ v < 1.8) ∧ ¬(t < 100 ∧ v < 2.8) := by
  unfold evaluate_machine_condition
  split_ifs with h1 h2
  · exact iff_of_false (by simp) (fun h => h.1 h1)
  · exact iff_of_false (by simp) (fun h => h.2 h2)
  · simp [h1, h2]

lemma core_healthy_iff_safe (t1 t2 vx vy vz : ℚ) :
    (analyzeHealthCore t1 t2 vx vy vz).overall_health = "Healthy" ↔
      (analyzeHealthCore t1 t2 vx vy vz).machine_condition = "Safe Condition" := by
  unfold analyzeHealthCore
  by_cases hc :
      evaluate_machine_condition ((t1 + t2) / 2) ((vx + vy + vz) / 3) = "Safe Condition"
  · simp [hc]
  · simp [hc]

lemma analyze_health_ok {d : List (String × ℚ)} {h : Health}
    (hd : analyze_health d = .ok h) :
    ∃ t1 t2 vx vy vz, h = analyzeHealthCore t1 t2 vx vy vz := by
  unfold analyze_health at hd
  repeat' split at hd
  all_goals try exact absurd hd (fun hcon => Except.noConfusion hcon)
  exact ⟨_, _, _, _, _, by injection hd with h2; exact h2.symm⟩

/-- C5: for all numeric inputs, machine_condition is Safe iff
avg_temperature < 80 and avg_vibration < 1.8, Maintain iff otherwise both
are below 100 and 2.8, else Repair; and the health report is Healthy iff
the condition is Safe. -/
theorem condition_thresholds :
    ∀ (t v : ℚ) (d : List (String × ℚ)) (h : Health),
      (evaluate_machine_condition t v = "Safe Condition" ↔ t < 80 ∧ v < 1.8) ∧
      (evaluate_machine_condition t v = "Maintain Condition" ↔
        ¬(t < 80 ∧ v < 1.8) ∧ (t < 100 ∧ v < 2.8)) ∧
      (evaluate_machine_condition t v = "Repair Condition" ↔
        ¬(t < 80 ∧ v < 1.8) ∧ ¬(t < 100 ∧ v < 2.8)) ∧
      (analyze_health d = .ok h →
        (h.overall_health = "Healthy" ↔ h.machine_condition = "Safe Condition")) := by
  intro t v d h
  refine ⟨emc_safe t v, emc_maintain t v, emc_repair t v, ?_⟩
  intro hd
  obtain ⟨t1, t2, vx, vy, vz, rfl⟩ := analyze_health_ok hd
  exact core_healthy_iff_safe t1 t2 vx vy vz

unseal Rat.add Rat.mul Rat.inv Rat.ofScientific in
/-- Witness for C5 at the concrete safe modes dict dSafe. -/
theorem condition_thresholds_witness :
    (Health.mk "Safe Condition" "No significant temperature anomaly detected"
        "No significant vibration anomaly detected" "Healthy").overall_health = "Healthy" ↔
      (Health.mk "Safe Condition" "No significant temperature anomaly detected"
        "No significant vibration anomaly detected" "Healthy").machine_condition =
        "Safe Condition" :=
  (condition_thresholds 0 0 dSafe
    (Health.mk "Safe Condition" "No significant temperature anomaly detected"
      "No significant vibration anomaly detected" "Healthy")).2.2.2 (by decide)

/-- C6: the temperature analysis is the 4-tier half-open lookup on
avg_temperature and the vibration analysis the 5-tier half-open lookup on
avg_vibration, with the bounds 80/100/120 and 1.8/2.8/4.5/7.1. -/
theorem anomaly_tier_lookup :
    ∀ t v : ℚ,
      (detect_temperature_anomaly t = "No significant temperature anomaly detected" ↔
        t < 80) ∧
      (detect_temperature_anomaly t = "Moderate Overheating - Check Lubrication" ↔
        80 ≤ t ∧ t < 100) ∧
      (detect_temperature_anomaly t =
          "Significant Overheating - Possible Misalignment or Bearing Wear" ↔
        100 ≤ t ∧ t < 120) ∧
      (detect_temperature_anomaly t = "Critical Overheating - Immediate Repair Needed" ↔
        120 ≤ t) ∧
      (detect_vibration_anomaly v = "No significant vibration anomaly detected" ↔
        v < 1.8) ∧
      (detect_vibration_anomaly v = "Unbalance Fault" ↔ 1.8 ≤ v ∧ v < 2.8) ∧
      (detect_vibration_anomaly v = "Misalignment Fault" ↔ 2.8 ≤ v ∧ v < 4.5) ∧
      (detect_vibration_anomaly v = "Looseness Fault" ↔ 4.5 ≤ v ∧ v < 7.1) ∧
      (detect_vibration_anomaly v = "Bearing Fault or Gear Mesh Fault" ↔ 7.1 ≤ v) := by
  intro t v
  exact ⟨dta_none t, dta_moderate t, dta_significant t, dta_critical t, dva_none v,
    dva_unbalance v, dva_misalignment v, dva_looseness v, dva_bearing v⟩

/-- C10: the report is Healthy exactly when both anomaly diagnoses are the
no-anomaly strings, because Safe, the no-anomaly temperature tier and the
no-anomaly vibration tier are all determined by avg_temperature < 80 and
avg_vibration < 1.8. -/
theorem healthy_iff_no_anomalies :
    ∀ t1 t2 vx vy vz : ℚ,
      (analyzeHealthCore t1 t2 vx vy vz).overall_health = "Healthy" ↔
        ((analyzeHealthCore t1 t2 vx vy vz).temperature_analysis =
            "No significant temperature anomaly detected" ∧
          (analyzeHealthCore t1 t2 vx vy vz).vibration_analysis =
            "No significant vibration anomaly detected") := by
  intro t1 t2 vx vy vz
  have hmc : (analyzeHealthCore t1 t2 vx vy vz).machine_condition =
      evaluate_machine_condition ((t1 + t2) / 2) ((vx + vy + vz) / 3) := rfl
  have hta : (analyzeHealthCore t1 t2 vx vy vz).temperature_analysis =
      detect_temperature_anomaly ((t1 + t2) / 2) := rfl
  have hva : (analyzeHealthCore t1 t2 vx vy vz).vibration_analysis =
      detect_vibration_anomaly ((vx + vy + vz) / 3) := rfl
  rw [core_healthy_iff_safe t1 t2 vx vy vz, hmc, hta, hva, emc_safe, dta_none, dva_none]

/-- C4: the route rejects with a shape error, independently of the models,
exactly the non-list, empty, and over-1800 inputs; every list of length
1 to 1800 proceeds to predict_from_models. -/
theorem validation_gate :
    ∀ (M : ModelMap) (rs : List Reading),
      predict M .notList = .shapeError "Input must be an array" ∧
      ((∃ msg, predict M (.list rs) = .shapeError msg) ↔
        rs.length = 0 ∨ rs.length > 1800) ∧
      (rs.length = 0 ∨ rs.length > 1800 →
        ∀ M' : ModelMap, predict M (.list rs) = predict M' (.list rs)) ∧
      (1 ≤ rs.length → rs.length ≤ 1800 →
        predict M (.list rs) =
          match predict_from_models M rs with
          | .ok r => .success r
          | .errDict m => .errorBody m
          | .raised e => .serverError (excMsg e)) := by
  intro M rs
  refine ⟨rfl, ?_, ?_, ?_⟩
  · simp only [predict]
    split_ifs with h1 h2
    · exact iff_of_true ⟨_, rfl⟩ (Or.inr h1)
    · exact iff_of_true ⟨_, rfl⟩ (Or.inl h2)
    · refine iff_of_false ?_ (by push_neg; omega)
      rintro ⟨msg, hm⟩
      cases hpf : predict_from_models M rs <;> rw [hpf] at hm <;> simp at hm
  · intro hdisj M'
    simp only [predict]
    split_ifs with h1 h2
    · rfl
    · rfl
    · omega
  · intro hlo hhi
    simp only [predict]
    split_ifs with h1 h2
    · omega
    · omega
    · rfl

/-- Witness for C4 at the one-reading batch of rGood. -/
theorem validation_gate_witness :
    predict Mc (.list [rGood]) =
      match predict_from_models Mc [rGood] with
      | .ok r => .success r
      | .errDict m => .errorBody m
      | .raised e => .serverError (excMsg e) :=
  (validation_gate Mc [rGood]).2.2.2 (by decide) (by decide)

/-! Specification of most_common: maximal multiplicity, first-seen ties. -/

lemma exists_argmax {α : Type} (f : α → ℕ) :
    ∀ l : List α, l ≠ [] → ∃ m ∈ l, ∀ z ∈ l, f z ≤ f m := by
  intro l
  induction l with
  | nil => intro h; exact absurd rfl h
  | cons x xs ih =>
    intro _
    rcases eq_or_ne xs [] with rfl | hxs
    · refine ⟨x, List.mem_cons_self x [], ?_⟩
      intro z hz
      rcases List.mem_cons.mp hz with rfl | hz
      · exact le_rfl
      · exact absurd hz (List.not_mem_nil z)
    · obtain ⟨m, hm, hmax⟩ := ih hxs
      rcases le_total (f x) (f m) with h | h
      · refine ⟨m, List.mem_cons_of_mem x hm, ?_⟩
        intro z hz
        rcases List.mem_cons.mp hz with rfl | hz
        · exact h
        · exact hmax z hz
      · refine ⟨x, List.mem_cons_self x xs, ?_⟩
        intro z hz
        rcases List.mem_cons.mp hz with rfl | hz
        · exact le_rfl
        · exact (hmax z hz).trans h

lemma find?_earliest {α : Type} [DecidableEq α] (p : α → Bool) :
    ∀ (l : List α) (m : α), l.find? p = some m →
      ∀ y ∈ l, p y = true → l.indexOf m ≤ l.indexOf y := by
  intro l
  induction l with
  | nil => intro m h; simp at h
  | cons x xs ih =>
    intro m hfind y hy hpy
    by_cases hpx : p x = true
    · rw [List.find?_cons_of_pos xs hpx] at hfind
      injection hfind with hmx
      subst hmx
      simp
    · rw [List.find?_cons_of_neg xs (by simpa using hpx)] at hfind
      have hpm := List.find?_some hfind
      have hmx : x ≠ m := fun h => hpx (h ▸ hpm)
      rcases List.mem_cons.mp hy with rfl | hyxs
      · exact absurd hpy hpx
      · have hyx : x ≠ y := fun h => hpx (h ▸ hpy)
        rw [List.indexOf_cons_ne xs hmx, List.indexOf_cons_ne xs hyx]
        exact Nat.succ_le_succ (ih m hfind y hyxs hpy)

lemma most_common_spec {α : Type} [DecidableEq α] {l : List α} {m : α}
    (h : most_common l = some m) :
    m ∈ l ∧ (∀ y ∈ l, l.count y ≤ l.count m) ∧
      (∀ y ∈ l, l.count y = l.count m → l.indexOf m ≤ l.indexOf y) := by
  have hmem := List.mem_of_find?_eq_some h
  have hp := List.find?_some h
  have hmax : ∀ y ∈ l, l.count y ≤ l.count m := by
    intro y hy
    have := (List.all_eq_true.mp hp) y hy
    exact of_decide_eq_true this
  refine ⟨hmem, hmax, ?_⟩
  intro y hy hcount
  refine find?_earliest _ l m h y hy ?_
  rw [List.all_eq_true]
  intro z hz
  exact decide_eq_true ((hmax z hz).trans_eq hcount.symm)

lemma most_common_isSome {α : Type} [DecidableEq α] (l : List α) (hne : l ≠ []) :
    ∃ m, most_common l = some m := by
  obtain ⟨m, hm, hmax⟩ := exists_argmax (fun z => l.count z) l hne
  have : (most_common l).isSome := by
    rw [most_common, List.find?_isSome]
    refine ⟨m, hm, ?_⟩
    rw [List.all_eq_true]
    intro z hz
    exact decide_eq_true (hmax z hz)
  exact Option.isSome_iff_exists.mp this

/-! Structure of the mode extractor's output. -/

lemma modesAux_keys (batch : List Reading) :
    ∀ (ks : List String) (out : List (String × ℚ)),
      modesAux batch ks = .ok out → out.map Prod.fst = ks := by
  intro ks
  induction ks with
  | nil =>
    intro out hout
    injection hout with h
    rw [← h]
    rfl
  | cons k0 ks ih =>
    intro out hout
    simp only [modesAux] at hout
    cases hcv : collectValues k0 batch with
    | error e => rw [hcv] at hout; exact absurd hout (fun hc => Except.noConfusion hc)
    | ok vals =>
      rw [hcv] at hout
      dsimp only at hout
      cases hmc : most_common vals with
      | none => rw [hmc] at hout; exact absurd hout (fun hc => Except.noConfusion hc)
      | some m =>
        rw [hmc] at hout
        dsimp only at hout
        cases hrest : modesAux batch ks with
        | error e => rw [hrest] at hout; exact absurd hout (fun hc => Except.noConfusion hc)
        | ok rest =>
          rw [hrest] at hout
          dsimp only at hout
          injection hout with h
          rw [← h]
          simp [ih rest hrest]

lemma modesAux_lookup (batch : List Reading) :
    ∀ (ks : List String) (out : List (String × ℚ)) (k : String),
      ks.Nodup → k ∈ ks → modesAux batch ks = .ok out →
      ∃ vals m, collectValues k batch = .ok vals ∧ most_common vals = some m ∧
        out.lookup k = some m := by
  intro ks
  induction ks with
  | nil => intro out k _ hk; exact absurd hk (List.not_mem_nil k)
  | cons k0 ks ih =>
    intro out k hnd hk hout
    simp only [modesAux] at hout
    cases hcv : collectValues k0 batch with
    | error e => rw [hcv] at hout; exact absurd hout (fun hc => Except.noConfusion hc)
    | ok vals =>
      rw [hcv] at hout
      dsimp only at hout
      cases hmc : most_common vals with
      | none => rw [hmc] at hout; exact absurd hout (fun hc => Except.noConfusion hc)
      | some m =>
        rw [hmc] at hout
        dsimp only at hout
        cases hrest : modesAux batch ks with
        | error e => rw [hrest] at hout; exact absurd hout (fun hc => Except.noConfusion hc)
        | ok rest =>
          rw [hrest] at hout
          dsimp only at hout
          injection hout with h
          subst h
          rcases List.mem_cons.mp hk with rfl | hkks
          · exact ⟨vals, m, hcv, hmc, List.lookup_cons_self⟩
          · have hne : k ≠ k0 := by
              rintro rfl
              exact (List.nodup_cons.mp hnd).1 hkks
            obtain ⟨vals', m', hcv', hmc', hlk⟩ :=
              ih rest k (List.nodup_cons.mp hnd).2 hkks hrest
            refine ⟨vals', m', hcv', hmc', ?_⟩
            rw [List.lookup_cons]
            rw [show (k == k0) = false from beq_eq_false_iff_ne.mpr hne]
            exact hlk

/-- Per-key readiness of a batch for calculate_modes: every mode key
collects successfully and non-emptily. -/
def modesReady (batch : List Reading) : Bool :=
  modeKeys.all fun k =>
    match collectValues k batch with
    | .ok vs => !vs.isEmpty
    | .error _ => false

lemma modesAux_ok (batch : List Reading) :
    ∀ ks : List String,
      (∀ k ∈ ks, ∃ vs, collectValues k batch = .ok vs ∧ vs ≠ []) →
      ∃ out, modesAux batch ks = .ok out := by
  intro ks
  induction ks with
  | nil => exact fun _ => ⟨[], rfl⟩
  | cons k0 ks ih =>
    intro h
    obtain ⟨vs, hvs, hne⟩ := h k0 (List.mem_cons_self k0 ks)
    obtain ⟨m, hm⟩ := most_common_isSome vs hne
    obtain ⟨out, hout⟩ := ih fun k hk => h k (List.mem_cons_of_mem k0 hk)
    exact ⟨(k0, m) :: out, by simp [modesAux, hvs, hm, hout]⟩

lemma modesReady_spec {batch : List Reading} (h : modesReady batch = true) :
    ∀ k ∈ modeKeys, ∃ vs, collectValues k batch = .ok vs ∧ vs ≠ [] := by
  intro k hk
  have := (List.all_eq_true.mp h) k hk
  cases hcv : collectValues k batch with
  | error e => rw [hcv] at this; exact absurd this (by simp)
  | ok vs =>
    rw [hcv] at this
    refine ⟨vs, rfl, ?_⟩
    intro hnil
    rw [hnil] at this
    exact absurd this (by simp)

/-- C8: for every feature key and ready batch, the extracted mode is a
value of that feature of maximal multiplicity across the batch, and among
equally frequent values it is the first-encountered one in batch order; on
the concrete series 1, 2, 1, 2 the mode is 1. -/
theorem mode_extractor_first_seen :
    (∀ (batch : List Reading) (k : String) (vals : List ℚ),
        modesReady batch = true → k ∈ modeKeys → collectValues k batch = .ok vals →
        ∃ ms m, calculate_modes batch = .ok ms ∧ ms.lookup k = some m ∧
          m ∈ vals ∧ (∀ y ∈ vals, vals.count y ≤ vals.count m) ∧
          (∀ y ∈ vals, vals.count y = vals.count m →
            vals.indexOf m ≤ vals.indexOf y)) ∧
      most_common [(1 : ℚ), 2, 1, 2] = some 1 := by
  constructor
  · intro batch k vals hready hk hcv
    obtain ⟨out, hout⟩ := modesAux_ok batch modeKeys (modesReady_spec hready)
    obtain ⟨vals', m, hcv', hmc, hlk⟩ :=
      modesAux_lookup batch modeKeys out k (by decide) hk hout
    rw [hcv] at hcv'
    injection hcv' with hv
    subst hv
    obtain ⟨hmem, hmax, hfirst⟩ := most_common_spec hmc
    exact ⟨out, m, hout, hlk, hmem, hmax, hfirst⟩
  · decide

/-- Witness for C8: a four-reading batch whose temperature_one series is
1, 2, 1, 2 yields mode 1 for temperature_one. -/
theorem mode_extractor_first_seen_witness :
    ∃ ms m,
      calculate_modes [rTemp 1, rTemp 2, rTemp 1, rTemp 2] = .ok ms ∧
        ms.lookup "temperature_one" = some m ∧
        m ∈ [(1 : ℚ), 2, 1, 2] ∧
        (∀ y ∈ [(1 : ℚ), 2, 1, 2],
          List.count y [(1 : ℚ), 2, 1, 2] ≤ List.count m [(1 : ℚ), 2, 1, 2]) ∧
        (∀ y ∈ [(1 : ℚ), 2, 1, 2],
          List.count y [(1 : ℚ), 2, 1, 2] = List.count m [(1 : ℚ), 2, 1, 2] →
          List.indexOf m [(1 : ℚ), 2, 1, 2] ≤ List.indexOf y [(1 : ℚ), 2, 1, 2]) :=
  mode_extractor_first_seen.1 [rTemp 1, rTemp 2, rTemp 1, rTemp 2]
    "temperature_one" [1, 2, 1, 2] (by decide) (by decide) (by decide)

/-- Whether a calculate_modes result carries an entry for the given key. -/
def hasKey (e : Except PyExc (List (String × ℚ))) (k : String) : Bool :=
  match e with
  | .ok ms => (ms.lookup k).isSome
  | .error _ => false

/-- C2 counterexample: on a valid one-reading batch carrying every feature,
the returned modes dict has no ultra_sound entry (while audible_sound is
present), refuting the claim that ultra_sound is among the extracted
modes. -/
theorem modes_ultra_sound_missing_cex :
    hasKey (calculate_modes [rGood]) "ultra_sound" = false ∧
      hasKey (calculate_modes [rGood]) "audible_sound" = true := by
  decide

/-- C2 amended: the mode extractor returns a mode for exactly the keys of
modeKeys, that is the temperature pair, the three vibration axes, the three
magnetic-flux axes and audible_sound; ultra_sound is not among them. -/
theorem modes_feature_set_amended :
    ∀ (batch : List Reading) (ms : List (String × ℚ)),
      calculate_modes batch = .ok ms →
      ms.map Prod.fst = modeKeys ∧ ms.lookup "ultra_sound" = none := by
  intro batch ms h
  have hkeys := modesAux_keys batch modeKeys ms h
  refine ⟨hkeys, ?_⟩
  rw [List.lookup_eq_none_iff]
  intro p hp
  have hmem : p.1 ∈ modeKeys := by
    rw [← hkeys]
    exact List.mem_map_of_mem Prod.fst hp
  have hne : p.1 ≠ "ultra_sound" := by
    intro he
    rw [he] at hmem
    exact absurd hmem (by decide)
  exact bne_iff_ne.mpr (Ne.symm hne)

/-- Modes dict computed for the one-reading batch of rGood. -/
def modesGoodLit : List (String × ℚ) :=
  [("temperature_one", 60), ("temperature_two", 70),
   ("vibration_x", 1), ("vibration_y", 1), ("vibration_z", 1),
   ("magnetic_flux_x", 1), ("magnetic_flux_y", 1), ("magnetic_flux_z", 1),
   ("audible_sound", 1)]

/-- Witness for the amended C2 at the one-reading batch of rGood. -/
theorem modes_feature_set_amended_witness :
    modesGoodLit.map Prod.fst = modeKeys ∧ modesGoodLit.lookup "ultra_sound" = none :=
  modes_feature_set_amended [rGood] modesGoodLit (by decide)

/-- Whether the reading holds a float-parseable value for the feature. -/
def featParses (r : Reading) (f : String) : Bool :=
  match r.lookup f with
  | some (.num _) => true
  | _ => false

lemma extractFeatures_ok (r : Reading) :
    ∀ fs : List String, (∀ f ∈ fs, featParses r f = true) →
      ∃ qs, extractFeatures r fs = .ok qs := by
  intro fs
  induction fs with
  | nil => exact fun _ => ⟨[], rfl⟩
  | cons f fs ih =>
    intro h
    have hf := h f (List.mem_cons_self f fs)
    obtain ⟨qs, hqs⟩ := ih fun g hg => h g (List.mem_cons_of_mem f hg)
    unfold featParses at hf
    cases hlk : r.lookup f with
    | none => rw [hlk] at hf; exact absurd hf (by simp)
    | some v =>
      cases v with
      | bad s => rw [hlk] at hf; exact absurd hf (by simp)
      | num q => exact ⟨q :: qs, by simp [extractFeatures, hlk, pyFloat, hqs]⟩

lemma extractFeatures_err (r : Reading) :
    ∀ (fs : List String) (f : String),
      fs.find? (fun g => !featParses r g) = some f →
      (r.lookup f = none → extractFeatures r fs = .error (.keyError f)) ∧
      (∀ s, r.lookup f = some (.bad s) →
        extractFeatures r fs = .error (.valueError s)) := by
  intro fs
  induction fs with
  | nil => intro f h; simp at h
  | cons g gs ih =>
    intro f hfind
    by_cases hpg : featParses r g = true
    · rw [List.find?_cons_of_neg gs (by simp [hpg])] at hfind
      obtain ⟨hkey, hval⟩ := ih f hfind
      have hgp := hpg
      unfold featParses at hgp
      cases hlk : r.lookup g with
      | none => rw [hlk] at hgp; exact absurd hgp (by simp)
      | some v =>
        cases v with
        | bad s => rw [hlk] at hgp; exact absurd hgp (by simp)
        | num q =>
          constructor
          · intro hf
            simp [extractFeatures, hlk, pyFloat, hkey hf]
          · intro s hf
            simp [extractFeatures, hlk, pyFloat, hval s hf]
    · rw [List.find?_cons_of_pos gs (by simp [hpg])] at hfind
      injection hfind with hf
      subst hf
      have hgp := hpg
      unfold featParses at hgp
      constructor
      · intro hf
        simp [extractFeatures, hf]
      · intro s hf
        simp [extractFeatures, hf, pyFloat]

/-- C1 amended: the predictor returns its structured error dict, which
names the model, exactly when every required feature is present but the
first problematic one fails to parse as a float; a required feature that
is absent instead raises a KeyError naming that feature, which escapes
predict_single_model; with all features present and parseable the
predictor returns the one-entry prediction dict. -/
theorem single_predictor_error_amended :
    ∀ (mname : String) (M : Model) (r : Reading),
      ((∀ f ∈ feature_sets mname, featParses r f = true) →
        ∃ v, predict_single_model mname M r = .ok (shortName mname) v) ∧
      (∀ f, (feature_sets mname).find? (fun g => !featParses r g) = some f →
        (r.lookup f = none →
          predict_single_model mname M r = .raised (.keyError f)) ∧
        (∀ s, r.lookup f = some (.bad s) →
          predict_single_model mname M r =
            .errDict ("Invalid input for " ++ mname ++ ": " ++ s))) := by
  intro mname M r
  constructor
  · intro h
    obtain ⟨qs, hqs⟩ := extractFeatures_ok r (feature_sets mname) h
    exact ⟨M qs, by simp [predict_single_model, hqs]⟩
  · intro f hfind
    obtain ⟨hkey, hval⟩ := extractFeatures_err r (feature_sets mname) f hfind
    constructor
    · intro hf
      simp [predict_single_model, hkey hf]
    · intro s hf
      simp [predict_single_model, hval s hf, excMsg]

/-- Witness for the amended C1: for the vibration model on rBad the first
problematic feature is the absent vibration_x, and the call raises a
KeyError naming it. -/
theorem single_predictor_error_amended_witness :
    predict_single_model "vibration_model" (Mc "vibration_model") rBad =
      .raised (.keyError "vibration_x") :=
  ((single_predictor_error_amended "vibration_model" (Mc "vibration_model") rBad).2
    "vibration_x" (by decide)).1 (by decide)

/-- C1 counterexample: each reading of the two-reading batch lacks
vibration_x, yet the vibration-model call does not return an error dict:
it raises a KeyError, and the route consequently answers with the generic
500 body whose message is the repr of the missing key, never naming the
vibration model. -/
theorem single_predictor_missing_feature_cex :
    predict_single_model "vibration_model" (Mc "vibration_model") rBad =
        .raised (.keyError "vibration_x") ∧
      predict Mc (.list [rBad, rBad]) =
        .serverError (excMsg (.keyError "vibration_x")) := by
  decide

lemma seriesFor_length (key : String) :
    ∀ (preds : List (List (String × PredVal))) (vals : List PredVal),
      seriesFor key preds = .ok vals → vals.length = preds.length := by
  intro preds
  induction preds with
  | nil =>
    intro vals h
    injection h with h
    rw [← h]
    rfl
  | cons p ps ih =>
    intro vals h
    simp only [seriesFor] at h
    cases hg : dictGet p key with
    | error e => rw [hg] at h; exact absurd h (fun hc => Except.noConfusion hc)
    | ok v =>
      rw [hg] at h
      dsimp only at h
      cases hs : seriesFor key ps with
      | error e => rw [hs] at h; exact absurd h (fun hc => Except.noConfusion hc)
      | ok vs =>
        rw [hs] at h
        dsimp only at h
        injection h with h
        rw [← h]
        simp [ih vs hs]

lemma aggregateAux_lookup (preds : List (List (String × PredVal))) :
    ∀ (ks : List String) (out : List (String × AggVal)) (mname : String),
      (ks.map shortName).Nodup → mname ∈ ks → aggregateAux preds ks = .ok out →
      ∃ vals a, seriesFor (shortName mname) preds = .ok vals ∧
        aggregateOne vals = .ok a ∧ out.lookup (shortName mname) = some a := by
  intro ks
  induction ks with
  | nil => intro out mname _ hm; exact absurd hm (List.not_mem_nil mname)
  | cons k0 ks ih =>
    intro out mname hnd hm hout
    simp only [aggregateAux] at hout
    cases hsv : seriesFor (shortName k0) preds with
    | error e => rw [hsv] at hout; exact absurd hout (fun hc => Except.noConfusion hc)
    | ok vals =>
      rw [hsv] at hout
      dsimp only at hout
      cases hao : aggregateOne vals with
      | error e => rw [hao] at hout; exact absurd hout (fun hc => Except.noConfusion hc)
      | ok a =>
        rw [hao] at hout
        dsimp only at hout
        cases hrest : aggregateAux preds ks with
        | error e => rw [hrest] at hout; exact absurd hout (fun hc => Except.noConfusion hc)
        | ok rest =>
          rw [hrest] at hout
          dsimp only at hout
          injection hout with h
          subst h
          rcases List.mem_cons.mp hm with rfl | hmks
          · exact ⟨vals, a, hsv, hao, List.lookup_cons_self⟩
          · have hne : shortName mname ≠ shortName k0 := by
              intro he
              have hk0 : shortName k0 ∉ ks.map shortName :=
                (List.nodup_cons.mp (by simpa using hnd)).1
              exact hk0 (he ▸ List.mem_map_of_mem shortName hmks)
            obtain ⟨vals', a', hsv', hao', hlk⟩ :=
              ih rest mname (List.nodup_cons.mp (by simpa using hnd)).2 hmks hrest
            refine ⟨vals', a', hsv', hao', ?_⟩
            rw [List.lookup_cons]
            rw [show (shortName mname == shortName k0) = false from
              beq_eq_false_iff_ne.mpr hne]
            exact hlk

/-- C7: per model, an all-numeric series aggregates to its arithmetic
mean; a series with any categorical value aggregates to the string
coercion of its most frequent value, ties broken by first-seen order. -/
theorem aggregation_mean_or_mode :
    ∀ (preds : List (List (String × PredVal))) (mname : String)
      (agg : List (String × AggVal)) (vals : List PredVal),
      mname ∈ model_names → preds ≠ [] →
      aggregate_predictions preds = .ok agg →
      seriesFor (shortName mname) preds = .ok vals →
      ((vals.all PredVal.isNum = true →
        agg.lookup (shortName mname) =
          some (.num ((vals.map PredVal.toNum).sum / (vals.length : ℚ)))) ∧
      (vals.all PredVal.isNum = false →
        ∃ m, m ∈ vals ∧ (∀ y ∈ vals, vals.count y ≤ vals.count m) ∧
          (∀ y ∈ vals, vals.count y = vals.count m →
            vals.indexOf m ≤ vals.indexOf y) ∧
          agg.lookup (shortName mname) = some (.cat (pyStr m)))) := by
  intro preds mname agg vals hmem hne hagg hsv
  obtain ⟨vals', a, hsv', hao, hlk⟩ :=
    aggregateAux_lookup preds model_names agg mname (by decide) hmem hagg
  rw [hsv] at hsv'
  injection hsv' with hv
  subst hv
  constructor
  · intro hall
    rw [show aggregateOne vals = .ok (.num (npMean vals)) from by
      simp [aggregateOne, hall]] at hao
    injection hao with ha
    subst ha
    exact hlk
  · intro hnotall
    have hvne : vals ≠ [] := by
      intro hnil
      apply hne
      have := seriesFor_length (shortName mname) preds vals hsv
      rw [hnil] at this
      exact List.length_eq_zero.mp this.symm
    obtain ⟨m, hm⟩ := most_common_isSome vals hvne
    rw [show aggregateOne vals = .ok (.cat (pyStr m)) from by
      simp [aggregateOne, hnotall, hm]] at hao
    injection hao with ha
    subst ha
    obtain ⟨hmm, hmax, hfirst⟩ := most_common_spec hm
    exact ⟨m, hmm, hmax, hfirst, hlk⟩

/-- Per-reading prediction dict of a one-reading batch, for the witness. -/
def predDict0 : List (String × PredVal) :=
  [("temperature", .num 2), ("vibration", .num 0), ("magnetic_flux", .num 0),
   ("audible_sound", .num 0), ("ultra_sound", .num 0)]

/-- Aggregate computed from the one-reading predictions predDict0. -/
def aggLit0 : List (String × AggVal) :=
  [("temperature", .num 2), ("vibration", .num 0), ("magnetic_flux", .num 0),
   ("audible_sound", .num 0), ("ultra_sound", .num 0)]

unseal Rat.add Rat.mul Rat.inv Rat.ofScientific in
/-- Witness for C7: the all-numeric temperature series of the one-reading
batch aggregates to its mean. -/
theorem aggregation_mean_or_mode_witness :
    aggLit0.lookup (shortName "temperature_model") =
      some (.num (([PredVal.num 2].map PredVal.toNum).sum /
        (([PredVal.num 2] : List PredVal).length : ℚ))) :=
  (aggregation_mean_or_mode [predDict0] "temperature_model" aggLit0 [.num 2]
    (by decide) (by decide) (by decide) (by decide)).1 (by decide)

/-- Whether the fan-out over all models succeeds for a reading (reference
completion order). -/
def readingOkB (M : ModelMap) (r : Reading) : Bool :=
  match processReading M model_names r with
  | .ok _ => true
  | _ => false

lemma runReadings_early_exit (M : ModelMap) :
    ∀ (pre : List Reading) (i : Nat) (r : Reading) (suf : List Reading),
      (∀ p ∈ pre, readingOkB M p = true) → readingOkB M r = false →
      (∃ m, processReading M model_names r = .errDict m ∧
        runReadings M (fun _ => model_names) i (pre ++ r :: suf) = .errDict m) ∨
      (∃ e, processReading M model_names r = .raised e ∧
        runReadings M (fun _ => model_names) i (pre ++ r :: suf) = .raised e) := by
  intro pre
  induction pre with
  | nil =>
    intro i r suf _ hbad
    unfold readingOkB at hbad
    cases hpr : processReading M model_names r with
    | ok d => rw [hpr] at hbad; exact absurd hbad (by simp)
    | errDict m =>
      refine Or.inl ⟨m, rfl, ?_⟩
      simp only [List.nil_append, runReadings, hpr]
    | raised e =>
      refine Or.inr ⟨e, rfl, ?_⟩
      simp only [List.nil_append, runReadings, hpr]
  | cons p pre ih =>
    intro i r suf hpre hbad
    have hp := hpre p (List.mem_cons_self p pre)
    unfold readingOkB at hp
    cases hpp : processReading M model_names p with
    | errDict m => rw [hpp] at hp; exact absurd hp (by simp)
    | raised e => rw [hpp] at hp; exact absurd hp (by simp)
    | ok d =>
      have hrest := ih (i + 1) r suf
        (fun q hq => hpre q (List.mem_cons_of_mem p hq)) hbad
      rcases hrest with ⟨m, hpr, hrun⟩ | ⟨e, hpr, hrun⟩
      · refine Or.inl ⟨m, hpr, ?_⟩
        simp only [List.cons_append, runReadings, hpp, List.append_eq, hrun]
      · refine Or.inr ⟨e, hpr, ?_⟩
        simp only [List.cons_append, runReadings, hpp, List.append_eq, hrun]

/-- C3: if some reading's fan-out fails, the pipeline result is that
single failure: the output is identical whatever readings follow the
failing one (they are never processed), and it is never the assembled
result, so no predictions, modes or analysis accompany an error. -/
theorem batch_early_exit_all_or_nothing :
    ∀ (M : ModelMap) (pre : List Reading) (r : Reading) (suf₁ suf₂ : List Reading),
      (∀ p ∈ pre, readingOkB M p = true) → readingOkB M r = false →
      predict_from_models M (pre ++ r :: suf₁) =
          predict_from_models M (pre ++ r :: suf₂) ∧
        ∀ res, predict_from_models M (pre ++ r :: suf₁) ≠ .ok res := by
  intro M pre r suf₁ suf₂ hpre hbad
  have h1 := runReadings_early_exit M pre 0 r suf₁ hpre hbad
  have h2 := runReadings_early_exit M pre 0 r suf₂ hpre hbad
  rcases h1 with ⟨m, hpr, hrun1⟩ | ⟨e, hpr, hrun1⟩ <;>
    rcases h2 with ⟨m2, hpr2, hrun2⟩ | ⟨e2, hpr2, hrun2⟩
  · rw [hpr] at hpr2
    injection hpr2 with hm
    subst hm
    constructor
    · simp only [predict_from_models, predict_from_models_sched, hrun1, hrun2]
    · intro res
      simp only [predict_from_models, predict_from_models_sched, hrun1]
      exact fun hc => PipeOut.noConfusion hc
  · rw [hpr] at hpr2
    exact absurd hpr2 (fun hc => ReadOut.noConfusion hc)
  · rw [hpr] at hpr2
    exact absurd hpr2 (fun hc => ReadOut.noConfusion hc)
  · rw [hpr] at hpr2
    injection hpr2 with he
    subst he
    constructor
    · simp only [predict_from_models, predict_from_models_sched, hrun1, hrun2]
    · intro res
      simp only [predict_from_models, predict_from_models_sched, hrun1]
      exact fun hc => PipeOut.noConfusion hc

/-- Witness for C3: with one good reading before it, the rBad reading
fails, and the pipeline output does not depend on the reading after it. -/
theorem batch_early_exit_witness :
    predict_from_models Mc ([rGood] ++ rBad :: [rGood]) =
      predict_from_models Mc ([rGood] ++ rBad :: []) :=
  (batch_early_exit_all_or_nothing Mc [rGood] rBad [rGood] []
    (by decide) (by decide)).1

/-! Schedule-independence of the fan-out and aggregation (claim C9). -/

/-- Result entry a model contributes for a reading, when its invocation
succeeds. -/
def okPair (M : ModelMap) (r : Reading) (n : String) : Option (String × PredVal) :=
  match predict_single_model n (M n) r with
  | .ok k v => some (k, v)
  | _ => none

lemma okPair_key {M : ModelMap} {r : Reading} {n : String} {p : String × PredVal}
    (h : okPair M r n = some p) : p.1 = shortName n := by
  unfold okPair at h
  cases hps : predict_single_model n (M n) r with
  | errDict m => rw [hps] at h; exact absurd h (by simp)
  | raised e => rw [hps] at h; exact absurd h (by simp)
  | ok k v =>
    rw [hps] at h
    injection h with h
    have hk : k = shortName n := by
      unfold predict_single_model at hps
      cases hex : extractFeatures r (feature_sets n) with
      | error e =>
        rw [hex] at hps
        cases e <;> dsimp only at hps <;> exact absurd hps (fun hc => SingleOut.noConfusion hc)
      | ok xs =>
        rw [hex] at hps
        dsimp only at hps
        injection hps with h1 h2
        exact h1.symm
    rw [← h, hk]

lemma processReadingAux_ok_all (M : ModelMap) (r : Reading) :
    ∀ (order : List String) (acc : List (String × PredVal)),
      (∀ n ∈ order, (okPair M r n).isSome = true) →
      processReadingAux M r order acc = .ok (acc ++ order.filterMap (okPair M r)) := by
  intro order
  induction order with
  | nil => intro acc _; simp [processReadingAux]
  | cons n ns ih =>
    intro acc h
    have hn := h n (List.mem_cons_self n ns)
    unfold okPair at hn
    cases hps : predict_single_model n (M n) r with
    | errDict m => rw [hps] at hn; exact absurd hn (by simp)
    | raised e => rw [hps] at hn; exact absurd hn (by simp)
    | ok k v =>
      have hstep : processReadingAux M r (n :: ns) acc =
          processReadingAux M r ns (acc ++ [(k, v)]) := by
        simp [processReadingAux, hps]
      have hok : okPair M r n = some (k, v) := by simp [okPair, hps]
      rw [hstep, ih (acc ++ [(k, v)]) fun g hg => h g (List.mem_cons_of_mem n hg)]
      simp [List.filterMap_cons, hok]

lemma processReadingAux_all_of_ok (M : ModelMap) (r : Reading) :
    ∀ (order : List String) (acc : List (String × PredVal))
      (d : List (String × PredVal)),
      processReadingAux M r order acc = .ok d →
      ∀ n ∈ order, (okPair M r n).isSome = true := by
  intro order
  induction order with
  | nil => intro acc d _ n hn; exact absurd hn (List.not_mem_nil n)
  | cons g gs ih =>
    intro acc d hd n hn
    simp only [processReadingAux] at hd
    cases hps : predict_single_model g (M g) r with
    | errDict m => rw [hps] at hd; exact absurd hd (fun hc => ReadOut.noConfusion hc)
    | raised e => rw [hps] at hd; exact absurd hd (fun hc => ReadOut.noConfusion hc)
    | ok k v =>
      rw [hps] at hd
      dsimp only at hd
      rcases List.mem_cons.mp hn with rfl | hgs
      · simp [okPair, hps]
      · exact ih (acc ++ [(k, v)]) d hd n hgs

lemma processReading_eq (M : ModelMap) (r : Reading) (order : List String)
    (h : ∀ n ∈ order, (okPair M r n).isSome = true) :
    processReading M order r = .ok (order.filterMap (okPair M r)) := by
  have := processReadingAux_ok_all M r order [] h
  simpa [processReading] using this

lemma filterMap_okPair_keys (M : ModelMap) (r : Reading) :
    ∀ (order : List String), (∀ n ∈ order, (okPair M r n).isSome = true) →
      (order.filterMap (okPair M r)).map Prod.fst = order.map shortName := by
  intro order
  induction order with
  | nil => intro _; rfl
  | cons n ns ih =>
    intro h
    have hn := h n (List.mem_cons_self n ns)
    obtain ⟨p, hp⟩ := Option.isSome_iff_exists.mp hn
    simp only [List.filterMap_cons, hp, List.map_cons]
    rw [okPair_key hp, ih fun g hg => h g (List.mem_cons_of_mem n hg)]

lemma lookup_eq_of_perm {β : Type} :
    ∀ {l₁ l₂ : List (String × β)}, l₁.Perm l₂ → (l₁.map Prod.fst).Nodup →
      ∀ k, l₁.lookup k = l₂.lookup k := by
  intro l₁ l₂ h
  induction h with
  | nil => intro _ k; rfl
  | cons x h ih =>
    intro hnd k
    obtain ⟨a, b⟩ := x
    simp only [List.map_cons] at hnd
    rw [List.lookup_cons, List.lookup_cons]
    cases hka : k == a
    · exact ih (List.nodup_cons.mp hnd).2 k
    · rfl
  | swap x y l =>
    intro hnd k
    obtain ⟨a, b⟩ := x
    obtain ⟨c, d⟩ := y
    simp only [List.map_cons] at hnd
    rw [List.lookup_cons, List.lookup_cons, List.lookup_cons, List.lookup_cons]
    cases hkc : k == c
    · cases hka : k == a
      · rfl
      · rfl
    · cases hka : k == a
      · rfl
      · exfalso
        apply (List.nodup_cons.mp hnd).1
        rw [show c = a from (eq_of_beq hkc).symm.trans (eq_of_beq hka)]
        exact List.mem_cons_self a (l.map Prod.fst)
  | trans h₁ h₂ ih₁ ih₂ =>
    intro hnd k
    rw [ih₁ hnd k, ih₂ ((h₁.map Prod.fst).nodup_iff.mp hnd) k]

lemma seriesFor_congr (key : String) :
    ∀ {ds₁ ds₂ : List (List (String × PredVal))},
      List.Forall₂ (fun d₁ d₂ => ∀ k, d₁.lookup k = d₂.lookup k) ds₁ ds₂ →
      seriesFor key ds₁ = seriesFor key ds₂ := by
  intro ds₁ ds₂ h
  induction h with
  | nil => rfl
  | cons hab htl ih =>
    rename_i a b l₁ l₂
    have hd : dictGet a key = dictGet b key := by
      unfold dictGet
      rw [hab key]
    simp only [seriesFor, hd, ih]

lemma aggregateAux_congr {ds₁ ds₂ : List (List (String × PredVal))}
    (h : List.Forall₂ (fun d₁ d₂ => ∀ k, d₁.lookup k = d₂.lookup k) ds₁ ds₂) :
    ∀ ks : List String, aggregateAux ds₁ ks = aggregateAux ds₂ ks := by
  intro ks
  induction ks with
  | nil => rfl
  | cons mname ms ih =>
    simp only [aggregateAux, seriesFor_congr (shortName mname) h, ih]

lemma runReadings_sched (M : ModelMap) {σ₁ σ₂ : Nat → List String}
    (h₁ : ValidSched σ₁) (h₂ : ValidSched σ₂) :
    ∀ (batch : List Reading) (i j : Nat) (ds₁ : List (List (String × PredVal))),
      runReadings M σ₁ i batch = .ok ds₁ →
      ∃ ds₂, runReadings M σ₂ j batch = .ok ds₂ ∧
        List.Forall₂ (fun d₁ d₂ => ∀ k, d₁.lookup k = d₂.lookup k) ds₁ ds₂ := by
  intro batch
  induction batch with
  | nil =>
    intro i j ds₁ h
    injection h with h
    exact ⟨[], rfl, by rw [← h]; exact List.Forall₂.nil⟩
  | cons r rs ih =>
    intro i j ds₁ hrun
    simp only [runReadings] at hrun
    cases hpr : processReading M (σ₁ i) r with
    | errDict m =>
      rw [hpr] at hrun
      exact absurd hrun (fun hc => ReadOutList.noConfusion hc)
    | raised e =>
      rw [hpr] at hrun
      exact absurd hrun (fun hc => ReadOutList.noConfusion hc)
    | ok d =>
      rw [hpr] at hrun
      dsimp only at hrun
      cases hrest : runReadings M σ₁ (i + 1) rs with
      | errDict m =>
        rw [hrest] at hrun
        exact absurd hrun (fun hc => ReadOutList.noConfusion hc)
      | raised e =>
        rw [hrest] at hrun
        exact absurd hrun (fun hc => ReadOutList.noConfusion hc)
      | ok ds' =>
        rw [hrest] at hrun
        dsimp only at hrun
        injection hrun with h
        subst h
        have hall₁ : ∀ n ∈ σ₁ i, (okPair M r n).isSome = true :=
          processReadingAux_all_of_ok M r (σ₁ i) [] d hpr
        have hperm : (σ₁ i).Perm (σ₂ j) := (h₁ i).trans (h₂ j).symm
        have hall₂ : ∀ n ∈ σ₂ j, (okPair M r n).isSome = true := fun n hn =>
          hall₁ n (hperm.mem_iff.mpr hn)
        have hd1 : d = (σ₁ i).filterMap (okPair M r) := by
          have heq := processReading_eq M r (σ₁ i) hall₁
          rw [hpr] at heq
          exact ReadOut.ok.inj heq
        have hd2 : processReading M (σ₂ j) r = .ok ((σ₂ j).filterMap (okPair M r)) :=
          processReading_eq M r (σ₂ j) hall₂
        have hdperm : d.Perm ((σ₂ j).filterMap (okPair M r)) := by
          rw [hd1]
          exact hperm.filterMap (okPair M r)
        have hkeys : (d.map Prod.fst).Nodup := by
          rw [hd1, filterMap_okPair_keys M r (σ₁ i) hall₁]
          exact ((h₁ i).map shortName).nodup_iff.mpr (by decide)
        have hlk : ∀ k, d.lookup k = ((σ₂ j).filterMap (okPair M r)).lookup k :=
          lookup_eq_of_perm hdperm hkeys
        obtain ⟨ds₂, hds₂, hF⟩ := ih (i + 1) (j + 1) ds' hrest
        refine ⟨(σ₂ j).filterMap (okPair M r) :: ds₂, ?_, List.Forall₂.cons hlk hF⟩
        simp only [runReadings, hd2, hds₂]

/-- C9: for a fixed batch and fixed deterministic models, the pipeline
produces the same successful result dict (predictions, modes and analysis)
under any two completion orders of the concurrent per-reading model
invocations, so repeated runs agree on predictions and modes. -/
theorem pipeline_schedule_determinism :
    ∀ (M : ModelMap) (σ₁ σ₂ : Nat → List String) (batch : List Reading),
      ValidSched σ₁ → ValidSched σ₂ →
      ∀ res, predict_from_models_sched M σ₁ batch = .ok res ↔
        predict_from_models_sched M σ₂ batch = .ok res := by
  have main : ∀ (M : ModelMap) (σ₁ σ₂ : Nat → List String) (batch : List Reading),
      ValidSched σ₁ → ValidSched σ₂ → ∀ res : FullResult,
      predict_from_models_sched M σ₁ batch = .ok res →
      predict_from_models_sched M σ₂ batch = .ok res := by
    intro M σ₁ σ₂ batch h₁ h₂ res hok
    unfold predict_from_models_sched at hok ⊢
    cases hrun : runReadings M σ₁ 0 batch with
    | errDict m =>
      rw [hrun] at hok
      exact absurd hok (fun hc => PipeOut.noConfusion hc)
    | raised e =>
      rw [hrun] at hok
      exact absurd hok (fun hc => PipeOut.noConfusion hc)
    | ok ds₁ =>
      rw [hrun] at hok
      dsimp only at hok
      obtain ⟨ds₂, hds₂, hF⟩ := runReadings_sched M h₁ h₂ batch 0 0 ds₁ hrun
      rw [hds₂]
      dsimp only
      rw [show aggregate_predictions ds₂ = aggregate_predictions ds₁ from
        (aggregateAux_congr hF model_names).symm]
      exact hok
  intro M σ₁ σ₂ batch h₁ h₂ res
  exact ⟨main M σ₁ σ₂ batch h₁ h₂ res, main M σ₂ σ₁ batch h₂ h₁ res⟩

/-- Reference schedule: every reading completes its models in registration
order. -/
def σRef : Nat → List String := fun _ => model_names

/-- Reversed schedule: every reading completes its models in the reverse
order. -/
def σRev : Nat → List String := fun _ => model_names.reverse

/-- Aggregated predictions of the one-reading batch of rGood under the
constant-zero models. -/
def aggZero : List (String × AggVal) :=
  [("temperature", .num 0), ("vibration", .num 0), ("magnetic_flux", .num 0),
   ("audible_sound", .num 0), ("ultra_sound", .num 0)]

/-- Full pipeline result of the one-reading batch of rGood under the
constant-zero models. -/
def fullRes0 : FullResult :=
  ⟨aggZero, modesGoodLit,
    Health.mk "Safe Condition" "No significant temperature anomaly detected"
      "No significant vibration anomaly detected" "Healthy"⟩

unseal Rat.add Rat.mul Rat.inv Rat.ofScientific in
/-- Witness for C9: the reversed completion order yields the same result
as the reference order on the one-reading batch of rGood. -/
theorem pipeline_schedule_determinism_witness :
    predict_from_models_sched Mc σRev [rGood] = .ok fullRes0 :=
  (pipeline_schedule_determinism Mc σRef σRev [rGood]
    (fun _ => List.Perm.refl model_names)
    (fun _ => List.reverse_perm model_names) fullRes0).mp (by decide)

end AssetMonitor
